import Mathlib

/-
Verification of the reference cache of the asanawarrior repository
(src/asana/cache.go), shallowly embedded in Lean 4.

The cache (`acache` in the source) holds workspaces, projects, tags, users,
two id-keyed index maps and a per-project section registry.  Go maps are
embedded as association lists whose lookup returns the Go zero value ""
(for string-valued maps) respectively `none` (for the sections map).
The remote gateway (`getVarious`, `runPost`) is not part of the cache file;
its results are passed to the embedded operations as explicit oracle
arguments, so every possible gateway behaviour is covered.
-/

set_option autoImplicit false

namespace AW

/-- Entity record: the `Basic` struct of the source (id, name, optional
email), the uniform representation of workspaces, projects, tags, users
and sections. -/
structure Basic where
  Id : String
  Name : String
  Email : String
deriving Repr, DecidableEq

/-- Go map read for a `map[string]string`: first matching key wins, the
zero value "" is returned when the key is absent. -/
def alookup : List (String × String) → String → String
  | [], _ => ""
  | (k, v) :: rest, i => if k = i then v else alookup rest i

/-- Go map write for a `map[string]string`: overwrite the entry with the
given key in place, or append a fresh entry. -/
def ainsert : List (String × String) → String → String → List (String × String)
  | [], k, v => [(k, v)]
  | (k', v') :: rest, k, v =>
    if k' = k then (k, v) :: rest else (k', v') :: ainsert rest k v

/-- The index-rebuilding loops of `updateTags` and `update`:
`for _, t := range bs { m[t.Id] = f(t) }` starting from an empty map,
with `f` the projection stored in the map (`Name` for `tagmap`,
`Email` for `usermap`). -/
def buildMap (f : Basic → String) (bs : List Basic) : List (String × String) :=
  bs.foldl (fun m b => ainsert m b.Id (f b)) []

/-- Go map read for `map[string]*asection`: `none` models the missing-key
case (`found == false`). -/
def slookup : List (String × List Basic) → String → Option (List Basic)
  | [], _ => none
  | (k, v) :: rest, i => if k = i then some v else slookup rest i

/-- Go map write for `map[string]*asection` (mutation through the stored
pointer is modelled as replacing the entry's list). -/
def supdate : List (String × List Basic) → String → List Basic → List (String × List Basic)
  | [], k, v => [(k, v)]
  | (k', v') :: rest, k, v =>
    if k' = k then (k, v) :: rest else (k', v') :: supdate rest k v

/-- The linear-scan loop `for _, b := range bs { if b.Name == n { return … } }`
used by `ProjectId`, `TagId`, `SectionId` and `CreateTag`'s double check. -/
def findByName : List Basic → String → Option Basic
  | [], _ => none
  | b :: rest, n => if b.Name = n then some b else findByName rest n

/-- The linear-scan loop matching on `Id`, used by `AddSection`'s rename
check and by `SectionName`. -/
def findById : List Basic → String → Option Basic
  | [], _ => none
  | b :: rest, i => if b.Id = i then some b else findById rest i

/-- The linear-scan loop of `UserId`: `if email == u.Email { return u.Id }`. -/
def findByEmail : List Basic → String → Option Basic
  | [], _ => none
  | b :: rest, e => if e = b.Email then some b else findByEmail rest e

/-- The `acache` struct: cached sequences, the resolved default workspace
id, the two id-keyed index maps and the per-project section registry. -/
structure Acache where
  workspaces : List Basic
  defaultWork : String
  projects : List Basic
  tags : List Basic
  users : List Basic
  tagmap : List (String × String)
  usermap : List (String × String)
  sections : List (String × List Basic)
deriving Repr, DecidableEq

/-- A freshly constructed cache (all fields zero-valued). -/
def emptyCache : Acache :=
  { workspaces := [], defaultWork := "", projects := [], tags := [],
    users := [], tagmap := [], usermap := [], sections := [] }

/-- `strings.Split(s, "@")[0]`: the part of `s` before the first `@`
(the whole string when no `@` occurs). -/
def takeBeforeAt : List Char → List Char
  | [] => []
  | ch :: rest => if ch = '@' then [] else ch :: takeBeforeAt rest

/-- Email normalization of `update` step 5: keep only the local part. -/
def emailLocal (s : String) : String := String.mk (takeBeforeAt s.toList)

/-- The per-user loop body `u.Email = strings.Split(u.Email, "@")[0]`. -/
def normEmail (b : Basic) : Basic := { b with Email := emailLocal b.Email }

/-- Outcome of `update()`: success, a stage-wrapped error, or the
`log.Fatalf` path (process termination on unresolvable default workspace). -/
inductive UpOutcome where
  | ok : UpOutcome
  | err : String → UpOutcome
  | fatal : String → UpOutcome
deriving Repr, DecidableEq

/-- `errors.Wrap(err, stage)`: the message gains the stage label. -/
def errWrap (stage msg : String) : String := stage ++ ": " ++ msg

/-- Modelled from the spec: the message of the fatal "unable to find
domain" configuration error (the source's `log.Fatalf` format string is
abstracted to a function of the configured domain). -/
def fatalMsg (domain : String) : String := "unable to find domain " ++ domain

/-- Modelled from the spec: the remote gateway operation
`fetchList(resource, sortField) -> list<Entity>, error` (`getVarious` in
the repository, not under src/).  One `update()` consumes at most four
fetches; each is an oracle value.  Following the Go convention the
sequence accompanying a failed fetch is the empty (nil) slice, which is
what `update` then assigns. -/
structure Fetches where
  fws : Except String (List Basic)
  fps : Except String (List Basic)
  fts : Except String (List Basic)
  fus : Except String (List Basic)

/-- The default-workspace scan of `update`:
`for _, w := range ws { if w.Name == *domain { c.defaultWork = w.Id } }`,
starting from the field's prior value; the second component counts the
assignments performed by the loop. -/
def scanWork (ws : List Basic) (domain dw0 : String) : String × Nat :=
  ws.foldl (fun acc w => if w.Name = domain then (w.Id, acc.2 + 1) else acc) (dw0, 0)

/-- `updateTags`: fetch tags, rebuild `tagmap` on success; on a failed
fetch `c.tags` has already been overwritten (with the nil result) and the
error is returned with `tagmap` untouched. -/
def updateTags (c : Acache) (fts : Except String (List Basic)) : Acache × Option String :=
  match fts with
  | Except.error e => ({ c with tags := [] }, some e)
  | Except.ok ts => ({ c with tags := ts, tagmap := buildMap Basic.Name ts }, none)

/-- `update()`: repopulate workspaces, resolve the default workspace
(fatal when the field is empty after the scan), then projects, tags,
users (emails normalized, `usermap` rebuilt) and finally reset the
section registry.  Each multi-assignment `c.x, err = getVarious(…)`
overwrites the field even on error (nil result), and the function
returns at the first failing step. -/
def update (c : Acache) (domain : String) (f : Fetches) : Acache × UpOutcome :=
  match f.fws with
  | Except.error e => ({ c with workspaces := [] }, UpOutcome.err (errWrap "workspaces" e))
  | Except.ok ws =>
    let dw := (scanWork ws domain c.defaultWork).1
    let c1 := { c with workspaces := ws, defaultWork := dw }
    if dw = "" then (c1, UpOutcome.fatal (fatalMsg domain))
    else
      match f.fps with
      | Except.error e => ({ c1 with projects := [] }, UpOutcome.err (errWrap "projects" e))
      | Except.ok ps =>
        let c2 := { c1 with projects := ps }
        match updateTags c2 f.fts with
        | (c3, some e) => (c3, UpOutcome.err (errWrap "updateTags" e))
        | (c3, none) =>
          match f.fus with
          | Except.error e => ({ c3 with users := [] }, UpOutcome.err (errWrap "users" e))
          | Except.ok us0 =>
            let us := us0.map normEmail
            ({ c3 with users := us, usermap := buildMap Basic.Email us, sections := [] },
             UpOutcome.ok)

/-- `Workspace()`. -/
def Workspace (c : Acache) : String := c.defaultWork

/-- `Projects()` (the source returns a copy; value semantics make the
copy the sequence itself). -/
def Projects (c : Acache) : List Basic := c.projects

/-- `ProjectId(name)`: linear scan of `projects` by Name. -/
def ProjectId (c : Acache) (name : String) : String :=
  match findByName c.projects name with
  | some p => p.Id
  | none => ""

/-- `User(uid)`: `usermap[uid]`. -/
def User (c : Acache) (uid : String) : String := alookup c.usermap uid

/-- `UserId(email)`: linear scan of `users` by Email. -/
def UserId (c : Acache) (email : String) : String :=
  match findByEmail c.users email with
  | some u => u.Id
  | none => ""

/-- `Tag(uid)`: `tagmap[uid]`. -/
def Tag (c : Acache) (uid : String) : String := alookup c.tagmap uid

/-- `TagId(tname)`: linear scan of `tags` by Name. -/
def TagId (c : Acache) (tname : String) : String :=
  match findByName c.tags tname with
  | some t => t.Id
  | none => ""

/-- `CreateTag(tname)`: double-check the tags sequence under the lock;
only when no entry with the requested name exists is the remote creation
issued.  The oracle argument is the decoded result of
`runPost` + `json.Unmarshal` (`none` covering both the transport-error
and the decode-error early returns).  The third component records
whether the remote creation call was issued. -/
def CreateTag (c : Acache) (tname : String) (remote : Option Basic) :
    Acache × String × Bool :=
  match findByName c.tags tname with
  | some t => (c, t.Id, false)
  | none =>
    match remote with
    | none => (c, "", true)
    | some b =>
      ({ c with tags := c.tags ++ [b], tagmap := ainsert c.tagmap b.Id b.Name },
       b.Id, true)

/-- The character filter of `AddSection`'s `strings.Map` callback: keep
ASCII letters and digits, drop everything else. -/
def keepAlnum (ch : Char) : Bool :=
  ('A' ≤ ch && ch ≤ 'Z') || ('a' ≤ ch && ch ≤ 'z') || ('0' ≤ ch && ch ≤ '9')

/-- `strings.Map` over the section name: delete every character that is
not an ASCII letter or digit. -/
def normalizeName (s : String) : String := String.mk (s.toList.filter keepAlnum)

/-- `strings.HasSuffix(s, ":")`: for the one-byte suffix `:` this is
exactly "the last character is a colon". -/
def endsWithColon (s : String) : Bool :=
  match s.toList.getLast? with
  | some ch => ch == ':'
  | none => false

/-- The rename loop of `AddSection`: find the first entry with the
candidate's Id and set its Name in place; `none` when no entry matches. -/
def renameInList : List Basic → Basic → Option (List Basic)
  | [], _ => none
  | b :: rest, sec =>
    if b.Id = sec.Id then some ({ b with Name := sec.Name } :: rest)
    else
      match renameInList rest sec with
      | some rest' => some (b :: rest')
      | none => none

/-- `AddSection(projId, sec)`: the missing map entry is created (empty)
before the colon filter runs, exactly as in the source; a candidate whose
name does not end in a colon is then rejected with "".  Accepted
candidates have their name normalized, then either rename an existing
entry with the same Id in place or are appended. -/
def AddSection (c : Acache) (projId : String) (sec : Basic) : Acache × String :=
  let s : List Basic := (slookup c.sections projId).getD []
  let secs0 : List (String × List Basic) :=
    match slookup c.sections projId with
    | some _ => c.sections
    | none => supdate c.sections projId []
  if endsWithColon sec.Name then
    let nm := normalizeName sec.Name
    let sec' : Basic := { sec with Name := nm }
    match renameInList s sec' with
    | some s' => ({ c with sections := supdate secs0 projId s' }, nm)
    | none => ({ c with sections := supdate secs0 projId (s ++ [sec']) }, nm)
  else ({ c with sections := secs0 }, "")

/-- The section list registered for a project (empty when the project has
no entry), the view `SectionName`/`SectionId` scan. -/
def sectionList (c : Acache) (projId : String) : List Basic :=
  (slookup c.sections projId).getD []

/-- `SectionName(projId, secId)`: scan the project's section list by Id. -/
def SectionName (c : Acache) (projId secId : String) : String :=
  match slookup c.sections projId with
  | none => ""
  | some l =>
    match findById l secId with
    | some b => b.Name
    | none => ""

/-- `SectionId(projId, sectionName)`: scan the project's section list by
Name. -/
def SectionId (c : Acache) (projId sectionName : String) : String :=
  match slookup c.sections projId with
  | none => ""
  | some l =>
    match findByName l sectionName with
    | some b => b.Id
    | none => ""

/-- The number of entities with a given Name in a sequence (used to state
"exactly one tag named x"). -/
def countNamed : List Basic → String → Nat
  | [], _ => 0
  | b :: rest, n => (if b.Name = n then 1 else 0) + countNamed rest n

/-- A fetch result whose entity Ids are pairwise distinct (trivially true
for a failed fetch).  The spec's data model declares Ids service-assigned
and unique. -/
def okIdsNodup : Except String (List Basic) → Bool
  | Except.error _ => true
  | Except.ok ts => decide ((ts.map Basic.Id).Nodup)

/-- A remote-creation result whose Id does not collide with any cached
tag (trivially true for a failed creation). -/
def freshIdFor (o : Option Basic) (ts : List Basic) : Bool :=
  match o with
  | none => true
  | some b => (findById ts b.Id).isNone

/-- Every entity of the tags sequence is indexed: `tagmap` maps its Id to
its Name. -/
def tagsConsistent (c : Acache) : Prop :=
  ∀ t ∈ c.tags, alookup c.tagmap t.Id = t.Name

/-- Every entity of the users sequence is indexed: `usermap` maps its Id
to its (already normalized) Email. -/
def usersConsistent (c : Acache) : Prop :=
  ∀ u ∈ c.users, alookup c.usermap u.Id = u.Email

/-- The index-consistency invariant of the cache. -/
def indexConsistent (c : Acache) : Prop := tagsConsistent c ∧ usersConsistent c

instance (c : Acache) : Decidable (tagsConsistent c) := by
  unfold tagsConsistent; infer_instance

instance (c : Acache) : Decidable (usersConsistent c) := by
  unfold usersConsistent; infer_instance

instance (c : Acache) : Decidable (indexConsistent c) := by
  unfold indexConsistent; infer_instance

/-- Reader-lock events of a lookup operation, in program order: acquire
the shared lock, release it, or read a cache field. -/
inductive LockEv where
  | rlock : LockEv
  | runlock : LockEv
  | readStep : LockEv
deriving Repr, DecidableEq

/-- Checks that every read event of a trace happens while the shared lock
is held (`d` is the current hold depth). -/
def readsLocked : List LockEv → Nat → Bool
  | [], _ => true
  | LockEv.rlock :: r, d => readsLocked r (d + 1)
  | LockEv.runlock :: r, d => readsLocked r (d - 1)
  | LockEv.readStep :: r, d => decide (0 < d) && readsLocked r d

/-- `Workspace()`: `RLock()`, `defer RUnlock()`, read `defaultWork`. -/
def workspaceTrace : List LockEv := [LockEv.rlock, LockEv.readStep, LockEv.runlock]

/-- `Projects()`: `RLock()`, `defer RUnlock()`, copy `projects`. -/
def projectsTrace : List LockEv := [LockEv.rlock, LockEv.readStep, LockEv.runlock]

/-- `ProjectId(name)`: `RLock()`, `defer RUnlock()`, scan `projects`. -/
def projectIdTrace : List LockEv := [LockEv.rlock, LockEv.readStep, LockEv.runlock]

/-- `User(uid)`: `RLock()`, `defer RUnlock()`, read `usermap`. -/
def userTrace : List LockEv := [LockEv.rlock, LockEv.readStep, LockEv.runlock]

/-- `UserId(email)`: `RLock()`, `defer RUnlock()`, scan `users`. -/
def userIdTrace : List LockEv := [LockEv.rlock, LockEv.readStep, LockEv.runlock]

/-- `Tag(uid)`: `RLock()`, `defer RUnlock()`, read `tagmap`. -/
def tagTrace : List LockEv := [LockEv.rlock, LockEv.readStep, LockEv.runlock]

/-- `TagId(tname)`: the source calls `c.RLock()` and then `c.RUnlock()`
immediately (the `defer` keyword is missing on cache.go line 155), so the
scan of `tags` runs after the shared lock has been released. -/
def tagIdTrace : List LockEv := [LockEv.rlock, LockEv.runlock, LockEv.readStep]

/-- `SectionName(projId, secId)`: `RLock()`, `defer RUnlock()`, scan. -/
def sectionNameTrace : List LockEv := [LockEv.rlock, LockEv.readStep, LockEv.runlock]

/-- `SectionId(projId, sectionName)`: `RLock()`, `defer RUnlock()`, scan. -/
def sectionIdTrace : List LockEv := [LockEv.rlock, LockEv.readStep, LockEv.runlock]

/-- Concrete prior state (C2): a previous update resolved the default
workspace to "W1". -/
def c2state : Acache :=
  { workspaces := [], defaultWork := "W1", projects := [], tags := [],
    users := [], tagmap := [], usermap := [], sections := [] }

/-- Concrete fetch results (C2): no fetched workspace is named
"mydomain". -/
def c2fetches : Fetches :=
  { fws := Except.ok [⟨"W2", "other", ""⟩], fps := Except.ok [],
    fts := Except.ok [], fus := Except.ok [] }

/-- Concrete prior state (C3): one project "Alpha" cached. -/
def c3state : Acache :=
  { workspaces := [], defaultWork := "", projects := [⟨"p1", "Alpha", ""⟩],
    tags := [], users := [], tagmap := [], usermap := [], sections := [] }

/-- Concrete fetch results (C3): workspaces succeed, projects fail. -/
def c3fetches : Fetches :=
  { fws := Except.ok [⟨"W2", "dom", ""⟩], fps := Except.error "boom",
    fts := Except.ok [], fus := Except.ok [] }

/-- Cache produced by an `update()` that fetched two tags sharing the
Name "a" (C6). -/
def c6state : Acache :=
  (update emptyCache "dom"
    { fws := Except.ok [⟨"W", "dom", ""⟩], fps := Except.ok [],
      fts := Except.ok [⟨"1", "a", ""⟩, ⟨"2", "a", ""⟩],
      fus := Except.ok [] }).1

/-- Cache produced by an `update()` whose fetched tags have distinct Ids
and distinct Names (C6 witness). -/
def c6good : Acache :=
  (update emptyCache "dom"
    { fws := Except.ok [⟨"W", "dom", ""⟩], fps := Except.ok [],
      fts := Except.ok [⟨"1", "a", ""⟩, ⟨"2", "b", ""⟩],
      fus := Except.ok [] }).1

/-- Concrete fetch results for a fully successful first update (C2
witness): one workspace named "dom". -/
def c2wfetches : Fetches :=
  { fws := Except.ok [⟨"W1", "dom", ""⟩], fps := Except.ok [],
    fts := Except.ok [], fus := Except.ok [] }

/-- Concrete fetch results with unique entity Ids (C7 witness). -/
def c7fetches : Fetches :=
  { fws := Except.ok [⟨"W", "dom", ""⟩], fps := Except.ok [],
    fts := Except.ok [⟨"1", "a", ""⟩],
    fus := Except.ok [⟨"u1", "jane", "jane@example.com"⟩] }

theorem alookup_ainsert_self (m : List (String × String)) (k v : String) :
    alookup (ainsert m k v) k = v := by
  induction m with
  | nil => simp [ainsert, alookup]
  | cons p rest ih =>
    obtain ⟨k', v'⟩ := p
    by_cases h : k' = k
    · simp [ainsert, h, alookup]
    · simp [ainsert, h, alookup, ih]

theorem alookup_ainsert_ne (m : List (String × String)) (k v i : String) (h : k ≠ i) :
    alookup (ainsert m k v) i = alookup m i := by
  induction m with
  | nil => simp [ainsert, alookup, h]
  | cons p rest ih =>
    obtain ⟨k', v'⟩ := p
    by_cases hk : k' = k
    · subst hk; simp [ainsert, alookup, h]
    · simp [ainsert, hk, alookup, ih]

theorem alookup_foldl_notmem (f : Basic → String) (bs : List Basic) :
    ∀ (m : List (String × String)) (i : String), (∀ b ∈ bs, b.Id ≠ i) →
      alookup (bs.foldl (fun m b => ainsert m b.Id (f b)) m) i = alookup m i := by
  induction bs with
  | nil => intro m i _; rfl
  | cons hd tl ih =>
    intro m i h
    have h1 : hd.Id ≠ i := h hd (List.mem_cons_self _ _)
    have h2 : ∀ b ∈ tl, b.Id ≠ i := fun b hb => h b (List.mem_cons_of_mem _ hb)
    simp only [List.foldl_cons]
    rw [ih _ i h2, alookup_ainsert_ne _ _ _ _ h1]

theorem alookup_foldl_mem (f : Basic → String) (bs : List Basic) :
    ∀ (m : List (String × String)) (b : Basic), b ∈ bs → (bs.map Basic.Id).Nodup →
      alookup (bs.foldl (fun m x => ainsert m x.Id (f x)) m) b.Id = f b := by
  induction bs with
  | nil => intro m b hb _; cases hb
  | cons hd tl ih =>
    intro m b hb hnd
    simp only [List.map_cons, List.nodup_cons] at hnd
    simp only [List.foldl_cons]
    rcases List.mem_cons.mp hb with hEq | hm
    · subst hEq
      have h2 : ∀ x ∈ tl, x.Id ≠ b.Id := by
        intro x hx hIdEq
        exact hnd.1 (by rw [← hIdEq]; exact List.mem_map_of_mem Basic.Id hx)
      rw [alookup_foldl_notmem f tl _ _ h2, alookup_ainsert_self]
    · exact ih _ b hm hnd.2

theorem alookup_buildMap_mem (f : Basic → String) (bs : List Basic) (b : Basic)
    (hb : b ∈ bs) (hnd : (bs.map Basic.Id).Nodup) :
    alookup (buildMap f bs) b.Id = f b :=
  alookup_foldl_mem f bs [] b hb hnd

theorem alookup_buildMap_notmem (f : Basic → String) (bs : List Basic) (i : String)
    (h : ∀ b ∈ bs, b.Id ≠ i) : alookup (buildMap f bs) i = "" := by
  rw [buildMap, alookup_foldl_notmem f bs [] i h]; rfl

theorem findByName_none_count (l : List Basic) (n : String)
    (h : findByName l n = none) : countNamed l n = 0 := by
  induction l with
  | nil => rfl
  | cons b rest ih =>
    by_cases hb : b.Name = n
    · simp [findByName, hb] at h
    · simp [findByName, hb] at h
      simp [countNamed, hb, ih h]

theorem findByName_some_count (l : List Basic) (n : String) (t : Basic)
    (h : findByName l n = some t) : 1 ≤ countNamed l n := by
  induction l with
  | nil => simp [findByName] at h
  | cons b rest ih =>
    by_cases hb : b.Name = n
    · simp [countNamed, hb]
    · simp [findByName, hb] at h
      simpa [countNamed, hb] using ih h

theorem findByName_append_none (l₁ l₂ : List Basic) (n : String)
    (h : findByName l₁ n = none) :
    findByName (l₁ ++ l₂) n = findByName l₂ n := by
  induction l₁ with
  | nil => rfl
  | cons b rest ih =>
    by_cases hb : b.Name = n
    · simp [findByName, hb] at h
    · simp [findByName, hb] at h ⊢
      exact ih h

theorem countNamed_append (l₁ l₂ : List Basic) (n : String) :
    countNamed (l₁ ++ l₂) n = countNamed l₁ n + countNamed l₂ n := by
  induction l₁ with
  | nil => simp [countNamed]
  | cons b rest ih => simp [countNamed, ih, Nat.add_assoc]

theorem findById_none_forall (l : List Basic) (i : String)
    (h : findById l i = none) : ∀ b ∈ l, b.Id ≠ i := by
  induction l with
  | nil => intro b hb; cases hb
  | cons x rest ih =>
    by_cases hx : x.Id = i
    · simp [findById, hx] at h
    · simp [findById, hx] at h
      intro b hb
      rcases List.mem_cons.mp hb with hEq | hm
      · subst hEq; exact hx
      · exact ih h b hm

theorem findByName_nodup_mem (l : List Basic) (t : Basic) (ht : t ∈ l)
    (hnd : (l.map Basic.Name).Nodup) : findByName l t.Name = some t := by
  induction l with
  | nil => cases ht
  | cons b rest ih =>
    simp only [List.map_cons, List.nodup_cons] at hnd
    rcases List.mem_cons.mp ht with hEq | hm
    · subst hEq; simp [findByName]
    · have hb : b.Name ≠ t.Name := fun hNmEq =>
        hnd.1 (by rw [hNmEq]; exact List.mem_map_of_mem Basic.Name hm)
      simp [findByName, hb, ih hm hnd.2]

theorem findById_append_none (l₁ l₂ : List Basic) (i : String)
    (h : findById l₁ i = none) : findById (l₁ ++ l₂) i = findById l₂ i := by
  induction l₁ with
  | nil => rfl
  | cons b rest ih =>
    by_cases hb : b.Id = i
    · simp [findById, hb] at h
    · simp [findById, hb] at h ⊢
      exact ih h

theorem slookup_supdate_self (m : List (String × List Basic)) (k : String)
    (v : List Basic) : slookup (supdate m k v) k = some v := by
  induction m with
  | nil => simp [supdate, slookup]
  | cons p rest ih =>
    obtain ⟨k', v'⟩ := p
    by_cases h : k' = k
    · simp [supdate, h, slookup]
    · simp [supdate, h, slookup, ih]

theorem scanWork_foldl_count (ws : List Basic) (domain : String) :
    ∀ acc : String × Nat,
      (ws.foldl (fun acc w => if w.Name = domain then (w.Id, acc.2 + 1) else acc) acc).2
        = acc.2 + countNamed ws domain := by
  induction ws with
  | nil => intro acc; simp [countNamed]
  | cons w rest ih =>
    intro acc
    simp only [List.foldl_cons, countNamed]
    by_cases hw : w.Name = domain
    · rw [if_pos hw, if_pos hw, ih]
      omega
    · rw [if_neg hw, if_neg hw, ih]
      omega

theorem scanWork_count (ws : List Basic) (domain dw0 : String) :
    (scanWork ws domain dw0).2 = countNamed ws domain := by
  simp [scanWork, scanWork_foldl_count]

theorem map_normEmail_ids (us : List Basic) :
    (us.map normEmail).map Basic.Id = us.map Basic.Id := by
  induction us with
  | nil => rfl
  | cons u rest ih => simp [normEmail, ih]

theorem renameInList_none_iff (l : List Basic) (sec : Basic) :
    renameInList l sec = none ↔ findById l sec.Id = none := by
  induction l with
  | nil => simp [renameInList, findById]
  | cons b rest ih =>
    by_cases hb : b.Id = sec.Id
    · simp [renameInList, findById, hb]
    · simp only [renameInList, findById]
      rw [if_neg hb, if_neg hb, ← ih]
      cases renameInList rest sec <;> simp

theorem renameInList_some_length (l : List Basic) (sec : Basic) :
    ∀ l', renameInList l sec = some l' → l'.length = l.length := by
  induction l with
  | nil => intro l' h; simp [renameInList] at h
  | cons b rest ih =>
    intro l' h
    by_cases hb : b.Id = sec.Id
    · simp [renameInList, hb] at h
      subst h; simp
    · simp [renameInList, hb] at h
      cases hr : renameInList rest sec with
      | none => rw [hr] at h; simp at h
      | some r =>
        rw [hr] at h; simp at h
        subst h; simp [ih r hr]

theorem renameInList_some_findById (l : List Basic) (sec : Basic) :
    ∀ l', renameInList l sec = some l' →
      ∃ b, findById l' sec.Id = some b ∧ b.Name = sec.Name := by
  induction l with
  | nil => intro l' h; simp [renameInList] at h
  | cons b rest ih =>
    intro l' h
    by_cases hb : b.Id = sec.Id
    · simp [renameInList, hb] at h
      subst h
      exact ⟨{ b with Name := sec.Name }, by simp [findById, hb], rfl⟩
    · simp [renameInList, hb] at h
      cases hr : renameInList rest sec with
      | none => rw [hr] at h; simp at h
      | some r =>
        rw [hr] at h; simp at h
        subst h
        obtain ⟨x, hx1, hx2⟩ := ih r hr
        exact ⟨x, by simp [findById, hb, hx1], hx2⟩

theorem addSection_frame (c : Acache) (p : String) (sec : Basic) :
    (AddSection c p sec).1.tags = c.tags ∧ (AddSection c p sec).1.tagmap = c.tagmap ∧
    (AddSection c p sec).1.users = c.users ∧ (AddSection c p sec).1.usermap = c.usermap := by
  refine ⟨?_, ?_, ?_, ?_⟩ <;>
  · simp only [AddSection]
    split
    · split <;> rfl
    · rfl

/-- C1: `CreateTag` is idempotent by name: when at most one tag named `x`
is cached and the remote creation (when consulted) succeeds with an
entity named `x`, two consecutive `CreateTag x` calls return the same Id,
the second call issues no remote creation call (whatever its oracle `o2`
would answer), and afterwards exactly one tag named `x` is in the cache's
tags sequence. -/
theorem c1_createTag_idem (c : Acache) (x : String) (b : Basic) (o2 : Option Basic)
    (hname : b.Name = x) (hcount : countNamed c.tags x ≤ 1) :
    (CreateTag c x (some b)).2.1
        = (CreateTag (CreateTag c x (some b)).1 x o2).2.1 ∧
    (CreateTag (CreateTag c x (some b)).1 x o2).2.2 = false ∧
    countNamed (CreateTag (CreateTag c x (some b)).1 x o2).1.tags x = 1 := by
  cases h : findByName c.tags x with
  | some t =>
    have h1 : 1 ≤ countNamed c.tags x := findByName_some_count c.tags x t h
    simp [CreateTag, h]
    omega
  | none =>
    have h0 : countNamed c.tags x = 0 := findByName_none_count c.tags x h
    have happ : findByName (c.tags ++ [b]) x = some b := by
      rw [findByName_append_none c.tags [b] x h]
      simp [findByName, hname]
    simp [CreateTag, h, happ, countNamed_append, h0, countNamed, hname]

/-- Witness for C1: empty cache, tag name "x", remote creation returning
the entity ("t1", "x"); the second call's oracle is `none`, showing it is
never consulted. -/
theorem c1_witness :
    (CreateTag emptyCache "x" (some ⟨"t1", "x", ""⟩)).2.1
        = (CreateTag (CreateTag emptyCache "x" (some ⟨"t1", "x", ""⟩)).1 "x" none).2.1 ∧
    (CreateTag (CreateTag emptyCache "x" (some ⟨"t1", "x", ""⟩)).1 "x" none).2.2 = false ∧
    countNamed (CreateTag (CreateTag emptyCache "x"
      (some ⟨"t1", "x", ""⟩)).1 "x" none).1.tags "x" = 1 :=
  c1_createTag_idem emptyCache "x" ⟨"t1", "x", ""⟩ none rfl (by decide)

theorem addSection_reject (c : Acache) (p : String) (sec : Basic)
    (hrej : endsWithColon sec.Name = false) :
    (AddSection c p sec).2 = "" ∧
    sectionList (AddSection c p sec).1 p = sectionList c p ∧
    slookup (AddSection c p sec).1.sections p = some (sectionList c p) := by
  cases hs : slookup c.sections p with
  | some l => simp [AddSection, hrej, sectionList, hs]
  | none => simp [AddSection, hrej, sectionList, hs, slookup_supdate_self]

theorem addSection_accept (c : Acache) (p : String) (sec : Basic)
    (hacc : endsWithColon sec.Name = true) :
    (AddSection c p sec).2 = normalizeName sec.Name ∧
    SectionName (AddSection c p sec).1 p sec.Id = normalizeName sec.Name ∧
    Option.map Basic.Name (findById (sectionList (AddSection c p sec).1 p) sec.Id)
      = some (normalizeName sec.Name) := by
  cases hr : renameInList ((slookup c.sections p).getD [])
      { sec with Name := normalizeName sec.Name } with
  | some s' =>
    obtain ⟨b, hb1, hb2⟩ := renameInList_some_findById _ _ s' hr
    have hb1' : findById s' sec.Id = some b := hb1
    have hb2' : b.Name = normalizeName sec.Name := hb2
    refine ⟨?_, ?_, ?_⟩
    · simp [AddSection, hacc, hr]
    · simp [AddSection, hacc, hr, SectionName, slookup_supdate_self, hb1', hb2']
    · simp [AddSection, hacc, hr, sectionList, slookup_supdate_self, hb1', hb2']
  | none =>
    have hnone0 := (renameInList_none_iff ((slookup c.sections p).getD [])
      { sec with Name := normalizeName sec.Name }).mp hr
    have hnone : findById ((slookup c.sections p).getD []) sec.Id = none := hnone0
    have happ : findById ((slookup c.sections p).getD []
          ++ [{ sec with Name := normalizeName sec.Name }]) sec.Id
        = some { sec with Name := normalizeName sec.Name } := by
      have h1 := findById_append_none ((slookup c.sections p).getD [])
        [{ sec with Name := normalizeName sec.Name }] sec.Id hnone
      rw [h1]
      simp [findById]
    refine ⟨?_, ?_, ?_⟩
    · simp [AddSection, hacc, hr]
    · simp [AddSection, hacc, hr, SectionName, slookup_supdate_self, happ]
    · simp [AddSection, hacc, hr, sectionList, slookup_supdate_self, happ]

/-- C4: the section filter: a candidate whose Name has no trailing colon
is rejected — `AddSection` returns "" and the project's section list is
unchanged; a candidate whose Name ends with a colon is accepted —
`AddSection` returns the Name normalized to its ASCII letters and digits
and `SectionName` subsequently reports that normalized name for the
candidate's Id. -/
theorem c4_section_filter (c : Acache) (p : String) (sec : Basic) :
    (endsWithColon sec.Name = false →
      (AddSection c p sec).2 = "" ∧
      sectionList (AddSection c p sec).1 p = sectionList c p) ∧
    (endsWithColon sec.Name = true →
      (AddSection c p sec).2 = normalizeName sec.Name ∧
      SectionName (AddSection c p sec).1 p sec.Id = normalizeName sec.Name) := by
  constructor
  · intro hrej
    exact ⟨(addSection_reject c p sec hrej).1, (addSection_reject c p sec hrej).2.1⟩
  · intro hacc
    exact ⟨(addSection_accept c p sec hacc).1, (addSection_accept c p sec hacc).2.1⟩

/-- Witness for C4: the spec's concrete example — ("Done" rejected,
"In Progress:" accepted as "InProgress" and found by `SectionName`). -/
theorem c4_witness :
    (AddSection emptyCache "p" ⟨"0", "Done", ""⟩).2 = "" ∧
    (AddSection emptyCache "p" ⟨"1", "In Progress:", ""⟩).2 = "InProgress" ∧
    SectionName (AddSection emptyCache "p" ⟨"1", "In Progress:", ""⟩).1 "p" "1"
      = "InProgress" := by
  refine ⟨((c4_section_filter emptyCache "p" ⟨"0", "Done", ""⟩).1 (by decide)).1, ?_, ?_⟩
  · have h := ((c4_section_filter emptyCache "p" ⟨"1", "In Progress:", ""⟩).2 (by decide)).1
    rw [h]; decide
  · have h := ((c4_section_filter emptyCache "p" ⟨"1", "In Progress:", ""⟩).2 (by decide)).2
    rw [h]; decide

/-- C5: section rename in place: when project `p` already has a section
entry with the candidate's Id, `AddSection` with a new colon-terminated
Name returns the new normalized name, keeps the number of section entries
for `p` unchanged, and `SectionName p` then reports the new normalized
name for that Id. -/
theorem c5_section_rename (c : Acache) (p : String) (sec : Basic) (l : List Basic)
    (hl : slookup c.sections p = some l)
    (hid : (findById l sec.Id).isSome = true)
    (hcolon : endsWithColon sec.Name = true) :
    (AddSection c p sec).2 = normalizeName sec.Name ∧
    (sectionList (AddSection c p sec).1 p).length = l.length ∧
    SectionName (AddSection c p sec).1 p sec.Id = normalizeName sec.Name := by
  have hfind : findById l ({ sec with Name := normalizeName sec.Name } : Basic).Id ≠ none := by
    intro hcontra
    rw [show ({ sec with Name := normalizeName sec.Name } : Basic).Id = sec.Id from rfl]
      at hcontra
    rw [hcontra] at hid
    simp at hid
  cases hr : renameInList l { sec with Name := normalizeName sec.Name } with
  | none => exact absurd ((renameInList_none_iff _ _).mp hr) hfind
  | some s' =>
    obtain ⟨b, hb1, hb2⟩ := renameInList_some_findById _ _ s' hr
    have hb1' : findById s' sec.Id = some b := hb1
    have hlen := renameInList_some_length _ _ s' hr
    refine ⟨?_, ?_, ?_⟩
    · simp [AddSection, hl, hcolon, hr]
    · simp [AddSection, hl, hcolon, hr, sectionList, slookup_supdate_self, hlen]
    · simp [AddSection, hl, hcolon, hr, SectionName, slookup_supdate_self, hb1', hb2]

/-- Witness for C5: register "In Progress:" under project "p", then
rename it with "Almost Done:"; the count stays 1 and `SectionName`
reports "AlmostDone". -/
theorem c5_witness :
    (AddSection (AddSection emptyCache "p" ⟨"1", "In Progress:", ""⟩).1 "p"
        ⟨"1", "Almost Done:", ""⟩).2 = "AlmostDone" ∧
    (sectionList (AddSection (AddSection emptyCache "p" ⟨"1", "In Progress:", ""⟩).1 "p"
        ⟨"1", "Almost Done:", ""⟩).1 "p").length = 1 ∧
    SectionName (AddSection (AddSection emptyCache "p" ⟨"1", "In Progress:", ""⟩).1 "p"
        ⟨"1", "Almost Done:", ""⟩).1 "p" "1" = "AlmostDone" := by
  have h := c5_section_rename (AddSection emptyCache "p" ⟨"1", "In Progress:", ""⟩).1 "p"
    ⟨"1", "Almost Done:", ""⟩ [⟨"1", "InProgress", ""⟩] (by decide) (by decide) (by decide)
  refine ⟨?_, ?_, ?_⟩
  · rw [h.1]; decide
  · rw [h.2.1]; decide
  · rw [h.2.2]; decide

/-- C8 (counterexample): a rejected candidate does NOT leave the sections
mapping unchanged — on the first `AddSection` call for project "p" the
map entry for "p" is created (empty) before the colon filter runs. -/
theorem c8_counterexample :
    (AddSection emptyCache "p" ⟨"0", "Done", ""⟩).2 = "" ∧
    emptyCache.sections = [] ∧
    (AddSection emptyCache "p" ⟨"0", "Done", ""⟩).1.sections = [("p", [])] := by decide

/-- C8 (amended): a rejected candidate returns "" and adds no section
entity — the project's section list is unchanged — but the sections map
does end up holding an entry for `p` (the project's, possibly empty,
list), because the entry is created before the filter runs. -/
theorem c8_amended (c : Acache) (p : String) (sec : Basic)
    (hrej : endsWithColon sec.Name = false) :
    (AddSection c p sec).2 = "" ∧
    sectionList (AddSection c p sec).1 p = sectionList c p ∧
    slookup (AddSection c p sec).1.sections p = some (sectionList c p) :=
  addSection_reject c p sec hrej

/-- Witness for C8 (amended) at a concrete rejected candidate. -/
theorem c8_witness :
    (AddSection emptyCache "q" ⟨"3", "Done", ""⟩).2 = "" ∧
    sectionList (AddSection emptyCache "q" ⟨"3", "Done", ""⟩).1 "q"
      = sectionList emptyCache "q" ∧
    slookup (AddSection emptyCache "q" ⟨"3", "Done", ""⟩).1.sections "q"
      = some (sectionList emptyCache "q") :=
  c8_amended emptyCache "q" ⟨"3", "Done", ""⟩ (by decide)

/-- C9: of the nine read-only lookups, eight hold the shared lock for the
whole read (`RLock` with deferred `RUnlock`), but `TagId` calls `RUnlock`
immediately (no `defer`, cache.go line 155), so its scan of `tags` runs
with the lock already released — the claim fails on `TagId`, a slip in
the code (every sibling lookup defers the unlock). -/
theorem c9_tagId_reads_outside_lock :
    readsLocked tagIdTrace 0 = false ∧
    readsLocked workspaceTrace 0 = true ∧
    readsLocked projectsTrace 0 = true ∧
    readsLocked projectIdTrace 0 = true ∧
    readsLocked userTrace 0 = true ∧
    readsLocked userIdTrace 0 = true ∧
    readsLocked tagTrace 0 = true ∧
    readsLocked sectionNameTrace 0 = true ∧
    readsLocked sectionIdTrace 0 = true := by decide

/-- C10: a candidate whose Name ends with a colon but has no ASCII
letters or digits is accepted: an entry with the candidate's Id and empty
normalized Name is stored in the project's list, yet `AddSection` returns
"" — the same sentinel a rejected candidate produces, so the return value
cannot distinguish the two. -/
theorem c10_empty_normalized_name (c : Acache) (p : String) (sec sec2 : Basic)
    (hcolon : endsWithColon sec.Name = true)
    (hempty : normalizeName sec.Name = "")
    (hrej : endsWithColon sec2.Name = false) :
    (AddSection c p sec).2 = "" ∧
    Option.map Basic.Name (findById (sectionList (AddSection c p sec).1 p) sec.Id)
      = some "" ∧
    (AddSection c p sec2).2 = (AddSection c p sec).2 := by
  refine ⟨?_, ?_, ?_⟩
  · rw [(addSection_accept c p sec hcolon).1, hempty]
  · rw [(addSection_accept c p sec hcolon).2.2, hempty]
  · rw [(addSection_reject c p sec2 hrej).1, (addSection_accept c p sec hcolon).1, hempty]

/-- Witness for C10: candidate (":", Id "1") is accepted with empty
stored name; candidate ("Done", Id "2") is rejected; both return "". -/
theorem c10_witness :
    (AddSection emptyCache "p" ⟨"1", ":", ""⟩).2 = "" ∧
    Option.map Basic.Name (findById (sectionList
      (AddSection emptyCache "p" ⟨"1", ":", ""⟩).1 "p") "1") = some "" ∧
    (AddSection emptyCache "p" ⟨"2", "Done", ""⟩).2
      = (AddSection emptyCache "p" ⟨"1", ":", ""⟩).2 :=
  c10_empty_normalized_name emptyCache "p" ⟨"1", ":", ""⟩ ⟨"2", "Done", ""⟩
    (by decide) (by decide) (by decide)

/-- C2 (counterexample): with a stale non-empty `defaultWork` ("W1" from
a previous update) and no fetched workspace whose Name equals the domain,
`update` performs zero assignments to `defaultWork` (not exactly one) and
completes successfully instead of ending in the fatal configuration
error. -/
theorem c2_counterexample :
    countNamed [(⟨"W2", "other", ""⟩ : Basic)] "mydomain" = 0 ∧
    (scanWork [⟨"W2", "other", ""⟩] "mydomain" "W1").2 = 0 ∧
    (update c2state "mydomain" c2fetches).2 = UpOutcome.ok ∧
    (update c2state "mydomain" c2fetches).1.defaultWork = "W1" := by decide

/-- C2 (amended): during `update()`, `defaultWork` is assigned once per
fetched workspace whose Name equals the configured domain (so zero times
when none match); the call ends in the fatal configuration error exactly
when `defaultWork` is empty after the scan — i.e. no workspace matched
and no previous update had set it; consequently `defaultWork` is
non-empty after every successful `update()`. -/
theorem c2_amended (c : Acache) (domain : String) (f : Fetches) (ws : List Basic)
    (hws : f.fws = Except.ok ws) :
    (scanWork ws domain c.defaultWork).2 = countNamed ws domain ∧
    ((update c domain f).2 = UpOutcome.fatal (fatalMsg domain)
      ↔ (scanWork ws domain c.defaultWork).1 = "") ∧
    ((update c domain f).2 = UpOutcome.ok → (update c domain f).1.defaultWork ≠ "") := by
  refine ⟨scanWork_count ws domain c.defaultWork, ?_, ?_⟩
  all_goals
    by_cases hdw : (scanWork ws domain c.defaultWork).1 = "" <;>
    cases hps : f.fps <;> cases hts : f.fts <;> cases hus : f.fus <;>
    simp [update, updateTags, hws, hps, hts, hus, hdw]

/-- Witness for C2 (amended): first update of an empty cache, one
workspace named "dom" matching the domain. -/
theorem c2_witness :
    (scanWork [⟨"W1", "dom", ""⟩] "dom" emptyCache.defaultWork).2
      = countNamed [(⟨"W1", "dom", ""⟩ : Basic)] "dom" ∧
    ((update emptyCache "dom" c2wfetches).2 = UpOutcome.fatal (fatalMsg "dom")
      ↔ (scanWork [⟨"W1", "dom", ""⟩] "dom" emptyCache.defaultWork).1 = "") ∧
    ((update emptyCache "dom" c2wfetches).2 = UpOutcome.ok →
      (update emptyCache "dom" c2wfetches).1.defaultWork ≠ "") :=
  c2_amended emptyCache "dom" c2wfetches [⟨"W1", "dom", ""⟩] rfl

/-- C3 (counterexample): when the projects fetch fails, a `ProjectId`
lookup does NOT retain the stale pre-update data: the projects sequence
is overwritten with the failed fetch's empty (nil) result, so the
previously cached project "Alpha" no longer resolves (while the error is
wrapped with "projects" and `Workspace()` does return the newly resolved
Id). -/
theorem c3_counterexample :
    (update c3state "dom" c3fetches).2 = UpOutcome.err "projects: boom" ∧
    Workspace (update c3state "dom" c3fetches).1 = "W2" ∧
    ProjectId c3state "Alpha" = "p1" ∧
    ProjectId (update c3state "dom" c3fetches).1 "Alpha" = "" := by decide

/-- C3 (amended): if the projects fetch fails during `update()`, the call
returns an error wrapped with the stage label "projects", `Workspace()`
afterwards returns the newly resolved default workspace Id from step 2,
and the projects sequence is overwritten with the empty result of the
failed fetch (not retained); every field belonging to a later step —
tags, tagmap, users, usermap, sections — keeps its pre-update value: the
cache is overwritten up to and including the failing step, with no
rollback. -/
theorem c3_amended (c : Acache) (domain e : String) (f : Fetches) (ws : List Basic)
    (hws : f.fws = Except.ok ws)
    (hdw : (scanWork ws domain c.defaultWork).1 ≠ "")
    (hps : f.fps = Except.error e) :
    (update c domain f).2 = UpOutcome.err (errWrap "projects" e) ∧
    Workspace (update c domain f).1 = (scanWork ws domain c.defaultWork).1 ∧
    (update c domain f).1.projects = [] ∧
    (update c domain f).1.tags = c.tags ∧
    (update c domain f).1.tagmap = c.tagmap ∧
    (update c domain f).1.users = c.users ∧
    (update c domain f).1.usermap = c.usermap ∧
    (update c domain f).1.sections = c.sections := by
  simp [update, Workspace, hws, hps, hdw]

/-- Witness for C3 (amended): the concrete failed-projects update. -/
theorem c3_witness :
    (update c3state "dom" c3fetches).2 = UpOutcome.err (errWrap "projects" "boom") ∧
    Workspace (update c3state "dom" c3fetches).1
      = (scanWork [⟨"W2", "dom", ""⟩] "dom" c3state.defaultWork).1 ∧
    (update c3state "dom" c3fetches).1.projects = [] ∧
    (update c3state "dom" c3fetches).1.tags = c3state.tags ∧
    (update c3state "dom" c3fetches).1.tagmap = c3state.tagmap ∧
    (update c3state "dom" c3fetches).1.users = c3state.users ∧
    (update c3state "dom" c3fetches).1.usermap = c3state.usermap ∧
    (update c3state "dom" c3fetches).1.sections = c3state.sections :=
  c3_amended c3state "dom" "boom" c3fetches [⟨"W2", "dom", ""⟩] rfl (by decide) rfl

/-- C6 (counterexample): after an `update()` that fetched two tags with
the same Name "a" (Ids "1" and "2"), id "2" is present among the cached
tags but `TagId (Tag "2")` returns "1", not "2": the round trip fails
when cached tag Names are duplicated. -/
theorem c6_counterexample :
    (⟨"2", "a", ""⟩ : Basic) ∈ c6state.tags ∧
    Tag c6state "2" = "a" ∧
    TagId c6state (Tag c6state "2") = "1" := by decide

/-- C6 (amended): in a cache whose `tagmap` is the rebuilt index of its
tags (as every `update()` leaves it) and whose cached tags have pairwise
distinct Ids and pairwise distinct Names, the lookups round-trip:
`TagId (Tag id) = id` and `Tag (TagId name) = name` for every cached
tag, and both return "" for values not present among the cached tags. -/
theorem c6_amended (c : Acache)
    (hidx : c.tagmap = buildMap Basic.Name c.tags)
    (hids : (c.tags.map Basic.Id).Nodup)
    (hnames : (c.tags.map Basic.Name).Nodup) :
    (∀ t ∈ c.tags, TagId c (Tag c t.Id) = t.Id ∧ Tag c (TagId c t.Name) = t.Name) ∧
    (∀ i, findById c.tags i = none → Tag c i = "") ∧
    (∀ n, findByName c.tags n = none → TagId c n = "") := by
  have hTag : ∀ t ∈ c.tags, Tag c t.Id = t.Name := by
    intro t ht
    show alookup c.tagmap t.Id = t.Name
    rw [hidx]
    exact alookup_buildMap_mem Basic.Name c.tags t ht hids
  have hTagId : ∀ t ∈ c.tags, TagId c t.Name = t.Id := by
    intro t ht
    simp [TagId, findByName_nodup_mem c.tags t ht hnames]
  refine ⟨?_, ?_, ?_⟩
  · intro t ht
    constructor
    · rw [hTag t ht, hTagId t ht]
    · rw [hTagId t ht, hTag t ht]
  · intro i hi
    show alookup c.tagmap i = ""
    rw [hidx]
    exact alookup_buildMap_notmem Basic.Name c.tags i (findById_none_forall _ _ hi)
  · intro n hn
    simp [TagId, hn]

/-- Witness for C6 (amended): the duplicate-free tag cache `c6good`
(tags ("1","a") and ("2","b")); round trips hold and unknown values give
"". -/
theorem c6_witness :
    (TagId c6good (Tag c6good "1") = "1" ∧ Tag c6good (TagId c6good "a") = "a") ∧
    Tag c6good "zz" = "" ∧
    TagId c6good "zz" = "" := by
  have h := c6_amended c6good (by decide) (by decide) (by decide)
  exact ⟨h.1 ⟨"1", "a", ""⟩ (by decide), h.2.1 "zz" (by decide), h.2.2 "zz" (by decide)⟩

theorem indexConsistent_updateTags (c : Acache) (fts : Except String (List Basic))
    (hinv : indexConsistent c) (ht : okIdsNodup fts = true) :
    indexConsistent (updateTags c fts).1 := by
  obtain ⟨hc1, hc2⟩ := hinv
  cases fts with
  | error e =>
    refine ⟨?_, ?_⟩
    · intro t htm
      exact absurd htm (List.not_mem_nil t)
    · intro u hum
      exact hc2 u hum
  | ok ts =>
    have hnd : (ts.map Basic.Id).Nodup := by simpa [okIdsNodup] using ht
    refine ⟨?_, ?_⟩
    · intro t htm
      exact alookup_buildMap_mem Basic.Name ts t htm hnd
    · intro u hum
      exact hc2 u hum

theorem indexConsistent_update (c : Acache) (domain : String) (f : Fetches)
    (hinv : indexConsistent c) (ht : okIdsNodup f.fts = true)
    (hu : okIdsNodup f.fus = true) :
    indexConsistent (update c domain f).1 := by
  obtain ⟨hc1, hc2⟩ := hinv
  cases hws : f.fws with
  | error e =>
    simp only [update, hws]
    exact ⟨hc1, hc2⟩
  | ok ws =>
    by_cases hdw : (scanWork ws domain c.defaultWork).1 = ""
    · simp only [update, hws, if_pos hdw]
      exact ⟨hc1, hc2⟩
    · cases hps : f.fps with
      | error e =>
        simp only [update, hws, hps, if_neg hdw]
        exact ⟨hc1, hc2⟩
      | ok ps =>
        cases hts : f.fts with
        | error e =>
          simp only [update, updateTags, hws, hps, hts, if_neg hdw]
          refine ⟨?_, ?_⟩
          · intro t htm
            exact absurd htm (List.not_mem_nil t)
          · intro u hum
            exact hc2 u hum
        | ok ts =>
          have hndt : (ts.map Basic.Id).Nodup := by
            rw [hts] at ht
            simpa [okIdsNodup] using ht
          cases hus : f.fus with
          | error e =>
            simp only [update, updateTags, hws, hps, hts, hus, if_neg hdw]
            refine ⟨?_, ?_⟩
            · intro t htm
              exact alookup_buildMap_mem Basic.Name ts t htm hndt
            · intro u hum
              exact absurd hum (List.not_mem_nil u)
          | ok us0 =>
            have hndu : (us0.map Basic.Id).Nodup := by
              rw [hus] at hu
              simpa [okIdsNodup] using hu
            have hndu' : ((us0.map normEmail).map Basic.Id).Nodup := by
              rw [map_normEmail_ids]
              exact hndu
            simp only [update, updateTags, hws, hps, hts, hus, if_neg hdw]
            refine ⟨?_, ?_⟩
            · intro t htm
              exact alookup_buildMap_mem Basic.Name ts t htm hndt
            · intro u hum
              exact alookup_buildMap_mem Basic.Email (us0.map normEmail) u hum hndu'

theorem indexConsistent_createTag (c : Acache) (x : String) (o : Option Basic)
    (hinv : indexConsistent c) (hfresh : freshIdFor o c.tags = true) :
    indexConsistent (CreateTag c x o).1 := by
  obtain ⟨hc1, hc2⟩ := hinv
  cases h : findByName c.tags x with
  | some t =>
    simp only [CreateTag, h]
    exact ⟨hc1, hc2⟩
  | none =>
    cases o with
    | none =>
      simp only [CreateTag, h]
      exact ⟨hc1, hc2⟩
    | some b =>
      have hfr : findById c.tags b.Id = none := by
        simpa [freshIdFor, Option.isNone_iff_eq_none] using hfresh
      have hne : ∀ t ∈ c.tags, t.Id ≠ b.Id := findById_none_forall c.tags b.Id hfr
      simp only [CreateTag, h]
      refine ⟨?_, ?_⟩
      · intro t htm
        rcases List.mem_append.mp htm with hm | hm
        · rw [alookup_ainsert_ne c.tagmap b.Id b.Name t.Id (Ne.symm (hne t hm))]
          exact hc1 t hm
        · have hb : t = b := by simpa using hm
          subst hb
          rw [alookup_ainsert_self]
      · intro u hum
        exact hc2 u hum

theorem indexConsistent_addSection (c : Acache) (p : String) (sec : Basic)
    (hinv : indexConsistent c) : indexConsistent (AddSection c p sec).1 := by
  obtain ⟨hf1, hf2, hf3, hf4⟩ := addSection_frame c p sec
  obtain ⟨hc1, hc2⟩ := hinv
  refine ⟨?_, ?_⟩
  · intro t htm
    rw [hf2]
    exact hc1 t (hf1 ▸ htm)
  · intro u hum
    rw [hf4]
    exact hc2 u (hf3 ▸ hum)

/-- C7: index consistency is preserved by every cache operation: if every
cached tag (resp. user) is indexed by `tagmap` (resp. `usermap`) before,
then — given the data model's guarantee that fetched entity Ids are
unique and a created tag's service-assigned Id is fresh — the same holds
after `update` (whatever its outcome), after `updateTags`, after
`CreateTag` and after `AddSection`; in the source each such operation is
one lock-protected step (the exclusive lock is held for the whole call),
so the sequence append and its index insertion are atomic. -/
theorem c7_index_consistent (c : Acache) (domain x : String) (f : Fetches)
    (o : Option Basic) (p : String) (sec : Basic)
    (hinv : indexConsistent c)
    (ht : okIdsNodup f.fts = true)
    (hu : okIdsNodup f.fus = true)
    (hfresh : freshIdFor o c.tags = true) :
    indexConsistent (update c domain f).1 ∧
    indexConsistent (updateTags c f.fts).1 ∧
    indexConsistent (CreateTag c x o).1 ∧
    indexConsistent (AddSection c p sec).1 :=
  ⟨indexConsistent_update c domain f hinv ht hu,
   indexConsistent_updateTags c f.fts hinv ht,
   indexConsistent_createTag c x o hinv hfresh,
   indexConsistent_addSection c p sec hinv⟩

/-- Witness for C7 at concrete inputs: an empty cache, a successful
update with unique Ids, a tag creation with a fresh Id and a section
registration. -/
theorem c7_witness :
    indexConsistent (update emptyCache "dom" c7fetches).1 ∧
    indexConsistent (updateTags emptyCache c7fetches.fts).1 ∧
    indexConsistent (CreateTag emptyCache "x" (some ⟨"t1", "x", ""⟩)).1 ∧
    indexConsistent (AddSection emptyCache "p" ⟨"1", "In Progress:", ""⟩).1 :=
  c7_index_consistent emptyCache "dom" "x" c7fetches (some ⟨"t1", "x", ""⟩) "p"
    ⟨"1", "In Progress:", ""⟩ (by decide) (by decide) (by decide) (by decide)

end AW
